import Mathlib

/-!
Verification development for a small content-addressable git object store
(sources: src/src/main.rs, src/src/main1.rs, src/src/git.rs).

Byte sequences are modelled as `List Nat` (each element a byte value).
Fallible Rust code (including panics from `unwrap`/`expect`/out-of-bounds
indexing) is modelled with `Except GitError`; a panic is represented by the
`GitError.panicked` constructor carrying the panic message.
Zlib compression (flate2) is an external reversible codec; it is modelled as
the identity on byte lists, which is faithful up to the compressor bijection
since no claim inspects the compressed representation itself.
-/

set_option maxRecDepth 1000000

/-- Word-size truncation to 32 bits, used by the SHA-1 model. -/
def w32 (n : Nat) : Nat := n % 4294967296

/-- Left rotation of a 32-bit word. -/
def rotl (b n : Nat) : Nat := w32 ((n <<< b) ||| (n >>> (32 - b)))

/-- Big-endian 32-bit words from a byte list (SHA-1 message words). -/
def toWords : List Nat → List Nat
  | b0 :: b1 :: b2 :: b3 :: rest =>
      (b0 * 16777216 + b1 * 65536 + b2 * 256 + b3) :: toWords rest
  | _ => []

/-- Big-endian 64-bit byte encoding of a number (SHA-1 length field). -/
def be64 (n : Nat) : List Nat :=
  [n / 72057594037927936 % 256, n / 281474976710656 % 256, n / 1099511627776 % 256,
   n / 4294967296 % 256, n / 16777216 % 256, n / 65536 % 256, n / 256 % 256, n % 256]

/-- SHA-1 message padding: append 0x80, zero bytes, then the bit length. -/
def sha1Pad (msg : List Nat) : List Nat :=
  let len := msg.length
  let r := (len + 1) % 64
  let zeros := if r ≤ 56 then 56 - r else 56 + 64 - r
  msg ++ [128] ++ List.replicate zeros 0 ++ be64 (len * 8)

/-- SHA-1 message schedule extension; the word list is kept in reverse order
so each new word reads positions 2, 7, 13 and 15 from the head. -/
def sched (ws : List Nat) : Nat → List Nat
  | 0 => ws
  | k + 1 =>
      sched (w32 (rotl 1 (ws.getD 2 0 ^^^ ws.getD 7 0 ^^^ ws.getD 13 0 ^^^ ws.getD 15 0)) :: ws) k

/-- The 80 SHA-1 rounds over the scheduled words. -/
def sha1Rounds : List Nat → Nat → Nat → Nat → Nat → Nat → Nat → Nat × Nat × Nat × Nat × Nat
  | [], _, a, b, c, d, e => (a, b, c, d, e)
  | w :: rest, i, a, b, c, d, e =>
      let f :=
        if i < 20 then (b &&& c) ||| ((b ^^^ 4294967295) &&& d)
        else if i < 40 then b ^^^ c ^^^ d
        else if i < 60 then (b &&& c) ||| (b &&& d) ||| (c &&& d)
        else b ^^^ c ^^^ d
      let k :=
        if i < 20 then 1518500249
        else if i < 40 then 1859775393
        else if i < 60 then 2400959708
        else 3395469782
      let temp := w32 (rotl 5 a + f + e + k + w)
      sha1Rounds rest (i + 1) temp a (rotl 30 b) c d

/-- One SHA-1 block step over 16 message words. -/
def sha1Block (h : Nat × Nat × Nat × Nat × Nat) (block : List Nat) : Nat × Nat × Nat × Nat × Nat :=
  let ws := (sched block.reverse 64).reverse
  let (a, b, c, d, e) := sha1Rounds ws 0 h.1 h.2.1 h.2.2.1 h.2.2.2.1 h.2.2.2.2
  (w32 (h.1 + a), w32 (h.2.1 + b), w32 (h.2.2.1 + c), w32 (h.2.2.2.1 + d), w32 (h.2.2.2.2 + e))

/-- Fold SHA-1 over the padded message, 16 words at a time. -/
def sha1Loop (h : Nat × Nat × Nat × Nat × Nat) : List Nat → Nat × Nat × Nat × Nat × Nat
  | w0 :: w1 :: w2 :: w3 :: w4 :: w5 :: w6 :: w7 :: w8 :: w9 :: w10 :: w11 :: w12 :: w13 :: w14 :: w15 :: rest =>
      sha1Loop (sha1Block h [w0, w1, w2, w3, w4, w5, w6, w7, w8, w9, w10, w11, w12, w13, w14, w15]) rest
  | _ => h

/-- Big-endian bytes of one 32-bit word. -/
def word4 (n : Nat) : List Nat := [n / 16777216 % 256, n / 65536 % 256, n / 256 % 256, n % 256]

/-- Modelled from the sha1 crate used by both sources: the 20-byte SHA-1 digest. -/
def sha_hash (data : List Nat) : List Nat :=
  let (a, b, c, d, e) :=
    sha1Loop (1732584193, 4023233417, 2562383102, 271733878, 3285377520) (toWords (sha1Pad data))
  word4 a ++ word4 b ++ word4 c ++ word4 d ++ word4 e

/-- Lowercase hexadecimal digit character. -/
def hexDigit (n : Nat) : Char := if n < 10 then Char.ofNat (48 + n) else Char.ofNat (87 + n)

/-- Lowercase hexadecimal rendering of bytes, two digits per byte; models
hex encoding and the per-byte rendering used by the tree parser. -/
def bytesToHex (bs : List Nat) : List Char :=
  (bs.map (fun b => [hexDigit (b / 16), hexDigit (b % 16)])).flatten

/-- Modelled from git.rs sha_hash_str and the inline hex encoding in main.rs:
the 40-character lowercase hex SHA-1 digest string. -/
def sha_hash_str (data : List Nat) : String := String.mk (bytesToHex (sha_hash data))

/-- UTF-8 encoding of one character. -/
def utf8EncodeChar (c : Char) : List Nat :=
  let n := c.toNat
  if n < 128 then [n]
  else if n < 2048 then [192 + n / 64, 128 + n % 64]
  else if n < 65536 then [224 + n / 4096, 128 + n / 64 % 64, 128 + n % 64]
  else [240 + n / 262144, 128 + n / 4096 % 64, 128 + n / 64 % 64, 128 + n % 64]

/-- Byte view of a string (Rust str::as_bytes, UTF-8). -/
def strBytes (s : String) : List Nat := (s.data.map utf8EncodeChar).flatten

/-- UTF-8 validating decoder (Rust std::str::from_utf8), written with an
explicit fuel argument so that it evaluates by kernel reduction; the fuel is
always instantiated with the list length, which suffices since every step
consumes at least one byte. -/
def utf8DecodeGo : Nat → List Nat → Option (List Char)
  | _, [] => some []
  | 0, _ :: _ => none
  | fuel + 1, b :: bs =>
    if b < 128 then
      match utf8DecodeGo fuel bs with
      | some cs => some (Char.ofNat b :: cs)
      | none => none
    else if 194 ≤ b ∧ b ≤ 223 then
      match bs with
      | b₁ :: rest =>
        if 128 ≤ b₁ ∧ b₁ ≤ 191 then
          match utf8DecodeGo fuel rest with
          | some cs => some (Char.ofNat ((b - 192) * 64 + (b₁ - 128)) :: cs)
          | none => none
        else none
      | [] => none
    else if 224 ≤ b ∧ b ≤ 239 then
      match bs with
      | b₁ :: b₂ :: rest =>
        if ((if b = 224 then 160 else 128) ≤ b₁ ∧ b₁ ≤ (if b = 237 then 159 else 191)) ∧
            (128 ≤ b₂ ∧ b₂ ≤ 191) then
          match utf8DecodeGo fuel rest with
          | some cs => some (Char.ofNat ((b - 224) * 4096 + (b₁ - 128) * 64 + (b₂ - 128)) :: cs)
          | none => none
        else none
      | _ => none
    else if 240 ≤ b ∧ b ≤ 244 then
      match bs with
      | b₁ :: b₂ :: b₃ :: rest =>
        if ((if b = 240 then 144 else 128) ≤ b₁ ∧ b₁ ≤ (if b = 244 then 143 else 191)) ∧
            (128 ≤ b₂ ∧ b₂ ≤ 191) ∧ (128 ≤ b₃ ∧ b₃ ≤ 191) then
          match utf8DecodeGo fuel rest with
          | some cs => some (Char.ofNat ((b - 240) * 262144 + (b₁ - 128) * 4096 + (b₂ - 128) * 64 + (b₃ - 128)) :: cs)
          | none => none
        else none
      | _ => none
    else none

/-- UTF-8 decoding of a byte list; fails (like str::from_utf8) on invalid UTF-8. -/
def utf8Decode (bs : List Nat) : Option (List Char) := utf8DecodeGo bs.length bs

/-- Decimal digit character for a value below ten. -/
def digitChar (n : Nat) : Char := Char.ofNat (48 + n)

/-- Fuel-driven decimal rendering loop (least significant digit first into
the accumulator); fuel n + 1 always suffices for rendering n. -/
def natDecimalGo : Nat → Nat → List Char → List Char
  | 0, _, acc => acc
  | fuel + 1, n, acc =>
      if n < 10 then digitChar (n % 10) :: acc
      else natDecimalGo fuel (n / 10) (digitChar (n % 10) :: acc)

/-- Standard decimal digit list of a natural number (Rust to_string on usize/u64). -/
def natDecimal (n : Nat) : List Char := natDecimalGo (n + 1) n []

/-- Standard decimal string of a natural number. -/
def natDecimalStr (n : Nat) : String := String.mk (natDecimal n)

/-- Value of a decimal digit character list. -/
def digitsVal (cs : List Char) : Nat := cs.foldl (fun a c => 10 * a + (c.toNat - 48)) 0

/-- Modelled from Rust str::parse::<usize>: an optional leading plus sign
followed by one or more ASCII digits (overflow is not modelled; Nat is
unbounded, and no claim depends on usize overflow). -/
def parseUsize (s : String) : Option Nat :=
  let cs := match s.data with
    | '+' :: rest => rest
    | l => l
  if cs.isEmpty then none
  else if cs.all (fun c => decide (48 ≤ c.toNat) && decide (c.toNat ≤ 57)) then some (digitsVal cs)
  else none

/-- Hex value of one character (both cases accepted, as in the hex crate). -/
def hexVal (c : Char) : Option Nat :=
  let n := c.toNat
  if 48 ≤ n ∧ n ≤ 57 then some (n - 48)
  else if 97 ≤ n ∧ n ≤ 102 then some (n - 87)
  else if 65 ≤ n ∧ n ≤ 70 then some (n - 55)
  else none

/-- Modelled from hex::decode: pairs of hex digits to bytes, failing on an
odd-length input or a non-hex character. -/
def hexDecode : List Char → Option (List Nat)
  | [] => some []
  | [_] => none
  | c₁ :: c₂ :: rest =>
      match hexVal c₁, hexVal c₂, hexDecode rest with
      | some h, some l, some bs => some ((h * 16 + l) :: bs)
      | _, _, _ => none

/-- Modelled from Rust slice join / String join with a separator. -/
def joinWith (sep : String) : List String → String
  | [] => ""
  | [x] => x
  | x :: xs => x ++ sep ++ joinWith sep xs

/-- First n characters of a string (the sources slice ASCII hex ids, where
byte slicing and character slicing agree). -/
def strTake (s : String) (n : Nat) : String := String.mk (s.data.take n)

/-- Characters of a string after the first n. -/
def strDrop (s : String) (n : Nat) : String := String.mk (s.data.drop n)

/-- Error kinds named by the specification, plus `panicked` which models an
actual Rust panic (unwrap, expect or out-of-bounds indexing) in the code.
The sources define no error enum at all: every failure in them is a panic. -/
inductive GitError where
  | notFound
  | invalidFormat
  | unsupportedKind
  | ioFailure
  | panicked (msg : String)
deriving DecidableEq

instance {ε α : Type} [DecidableEq ε] [DecidableEq α] : DecidableEq (Except ε α) := fun x y =>
  match x, y with
  | .ok u, .ok v =>
      if h : u = v then .isTrue (by rw [h]) else .isFalse (by intro hc; cases hc; exact h rfl)
  | .error u, .error v =>
      if h : u = v then .isTrue (by rw [h]) else .isFalse (by intro hc; cases hc; exact h rfl)
  | .ok _, .error _ => .isFalse (by intro hc; cases hc)
  | .error _, .ok _ => .isFalse (by intro hc; cases hc)

/-- Filesystem model: a set of existing directories and a map from file path
to raw file bytes (association list, most recent write first). -/
structure FS where
  dirs : List String
  files : List (String × List Nat)
deriving DecidableEq

/-- Zlib compression (flate2 ZlibEncoder), modelled as the identity codec. -/
def compress (data : List Nat) : List Nat := data

/-- Zlib decompression (flate2 ZlibDecoder), inverse of `compress`. -/
def decompress (data : List Nat) : List Nat := data

/-- Modelled from fs::read / File::open + read_to_end: the bytes of the file
at a path, if it exists. -/
def fsRead (fs : FS) (path : String) : Option (List Nat) :=
  (fs.files.find? (fun e => e.1 == path)).map (fun e => e.2)

/-- Modelled from fs::write / File::create + write_all: create or overwrite
the file at a path. -/
def fsWrite (fs : FS) (path : String) (data : List Nat) : FS :=
  ⟨fs.dirs, (path, data) :: fs.files.filter (fun e => !(e.1 == path))⟩

/-- Modelled from fs::create_dir_all: succeeds whether or not the directory
already exists. -/
def createDirAll (fs : FS) (dir : String) : FS :=
  if dir ∈ fs.dirs then fs else ⟨dir :: fs.dirs, fs.files⟩

/-- Modelled from fs::create_dir, as called in git.rs hash_object: fails when
the directory already exists, and the source immediately panics on that
failure via expect. -/
def createDir (fs : FS) (dir : String) : Except GitError FS :=
  if dir ∈ fs.dirs then .error (.panicked "Failed to create sha object directory")
  else .ok ⟨dir :: fs.dirs, fs.files⟩

namespace SrcMain

/-- Modelled from main.rs GitBlob. -/
structure GitBlob where
  blob_data : List Nat
deriving DecidableEq

/-- Modelled from main.rs GitBlob::serialize (a clone of the raw bytes). -/
def GitBlob.serialize (b : GitBlob) : List Nat := b.blob_data

/-- Modelled from main.rs GitTreeLeaf: mode bytes, path, hex sha string. -/
structure GitTreeLeaf where
  mode : List Nat
  path : String
  sha_hash : String
deriving DecidableEq

/-- Modelled from main.rs tree_leaf_sort_key (identical to main1.rs
sort_git_tree_keys): the path itself for a mode starting with "10", and
otherwise the path with a trailing backslash appended — the format string
in the source is a backslash escape, while its comment speaks of a slash. -/
def tree_leaf_sort_key (leaf : GitTreeLeaf) : String :=
  if leaf.mode.take 2 = strBytes "10" then leaf.path else leaf.path ++ "\\"

/-- Byte-lexicographic comparison of character lists; for UTF-8 strings the
code-point order used here coincides with Rust byte-wise String order. -/
def charListLe : List Char → List Char → Bool
  | [], _ => true
  | _ :: _, [] => false
  | a :: as, b :: bs =>
      if a.toNat < b.toNat then true
      else if b.toNat < a.toNat then false
      else charListLe as bs

/-- Key comparison used to model Vec::sort_by_key(tree_leaf_sort_key). -/
def keyLe (x y : GitTreeLeaf) : Bool :=
  charListLe (tree_leaf_sort_key x).data (tree_leaf_sort_key y).data

/-- Stable insertion of a leaf into a key-sorted list: an earlier element is
placed before any later element with an equal key, matching the stability
guarantee of Rust sort_by_key. -/
def insertLeaf (x : GitTreeLeaf) : List GitTreeLeaf → List GitTreeLeaf
  | [] => [x]
  | y :: ys => if keyLe x y then x :: y :: ys else y :: insertLeaf x ys

/-- Stable sort by tree_leaf_sort_key, modelling leaves.sort_by_key in
GitTree::serialize; any two stable sorts under the same key agree. -/
def sortLeaves : List GitTreeLeaf → List GitTreeLeaf
  | [] => []
  | x :: xs => insertLeaf x (sortLeaves xs)

/-- Modelled from main.rs GitTree. -/
structure GitTree where
  leaves : List GitTreeLeaf
deriving DecidableEq

/-- Serialization of one sorted leaf: the mode with one leading "0" byte
trimmed, a space, the path bytes, a NUL, then the 20 raw bytes decoded from
the hex sha string (hex::decode(...).unwrap(); failure is None). -/
def serializeLeaf (leaf : GitTreeLeaf) : Option (List Nat) :=
  let mode := if leaf.mode.take 1 = [48] then leaf.mode.drop 1 else leaf.mode
  match hexDecode leaf.sha_hash.data with
  | some hash_bytes => some (mode ++ [32] ++ strBytes leaf.path ++ [0] ++ hash_bytes)
  | none => none

/-- Concatenated serialization of a leaf list. -/
def serLeaves : List GitTreeLeaf → Option (List Nat)
  | [] => some []
  | leaf :: rest =>
      match serializeLeaf leaf, serLeaves rest with
      | some b, some bs => some (b ++ bs)
      | _, _ => none

/-- Modelled from main.rs GitTree::serialize (identical to main1.rs
GitTree::compress): sort the leaves by tree_leaf_sort_key, then emit each
entry; None models the unwrap panic on an invalid hex sha. -/
def GitTree.serialize (t : GitTree) : Option (List Nat) := serLeaves (sortLeaves t.leaves)

/-- Modelled from main.rs GitCommit. -/
structure GitCommit where
  commit_data : String
deriving DecidableEq

/-- Modelled from main.rs GitCommit::serialize: the UTF-8 bytes of the text. -/
def GitCommit.serialize (c : GitCommit) : List Nat := strBytes c.commit_data

/-- Modelled from main.rs tree_parse / tree_parse_one. The mode is read into
a fixed six-byte array, so a shorter mode keeps trailing zero bytes (the
normalization branch in the source tests the length of the fixed array and
is therefore dead code); a mode longer than six bytes, a missing space or
NUL, or fewer than twenty remaining hash bytes are out-of-bounds panics. -/
def parseTree : List Nat → Except GitError (List GitTreeLeaf)
  | [] => .ok []
  | b :: bs =>
    let bytes := b :: bs
    let modeBytes := bytes.takeWhile (fun x => x ≠ 32)
    if modeBytes.length = bytes.length then .error (.panicked "index out of bounds")
    else if 6 < modeBytes.length then .error (.panicked "index out of bounds")
    else
      let mode := modeBytes ++ List.replicate (6 - modeBytes.length) 0
      let rest₁ := bytes.drop (modeBytes.length + 1)
      let pathBytes := rest₁.takeWhile (fun x => x ≠ 0)
      if pathBytes.length = rest₁.length then .error (.panicked "index out of bounds")
      else
        let rest₂ := rest₁.drop (pathBytes.length + 1)
        if rest₂.length < 20 then .error (.panicked "index out of bounds")
        else
          match parseTree (rest₂.drop 20) with
          | .ok leaves =>
              .ok (⟨mode, String.mk (pathBytes.map Char.ofNat),
                    String.mk (bytesToHex (rest₂.take 20))⟩ :: leaves)
          | .error e => .error e
termination_by l => l.length
decreasing_by simp only [List.length_drop, List.length_cons]; omega

/-- Modelled from main.rs GitObjectType (the enum has no Commit variant). -/
inductive GitObjectType where
  | Blob (blob : GitBlob)
  | Tree (tree : GitTree)
deriving DecidableEq

/-- Modelled from the path computation in main.rs read_object and
write_object: .git/objects/ then the first two hex characters, a slash, and
the remaining characters of the id. -/
def mainObjectPath (hash : String) : String :=
  ".git/objects/" ++ strTake hash 2 ++ "/" ++ strDrop hash 2

/-- Modelled from main.rs read_object: read the object file (unwrap),
decompress, find the first space and the first NUL anywhere in the bytes
(both unwrap), take the kind before the space and the payload after the NUL,
and dispatch on the kind. The declared length between space and NUL is never
parsed or checked. -/
def read_object (fs : FS) (hash : String) : Except GitError GitObjectType :=
  match fsRead fs (mainObjectPath hash) with
  | none => .error (.panicked "fs read unwrap failed")
  | some data =>
    let decoded_bytes := decompress data
    match decoded_bytes.findIdx? (fun x => x == 32) with
    | none => .error (.panicked "position of space unwrap failed")
    | some index_of_first_whitespace =>
      match decoded_bytes.findIdx? (fun x => x == 0) with
      | none => .error (.panicked "position of null unwrap failed")
      | some index_of_first_null =>
        let object_type := decoded_bytes.take index_of_first_whitespace
        let byte_contents := decoded_bytes.drop (index_of_first_null + 1)
        if object_type = strBytes "blob" then .ok (.Blob ⟨byte_contents⟩)
        else if object_type = strBytes "tree" then
          match parseTree byte_contents with
          | .ok leaves => .ok (.Tree ⟨leaves⟩)
          | .error e => .error e
        else .error (.panicked "unknown object type")

/-- Modelled from main.rs write_object: build the envelope
kind + space + decimal length + NUL + payload, hash it, create the object
subdirectory with create_dir_all (tolerant of existing directories), and
write the compressed envelope (overwriting any existing file). -/
def write_object (fs : FS) (contents : List Nat) (object_type : List Nat) : String × FS :=
  let result := object_type ++ [32] ++ strBytes (natDecimalStr contents.length) ++ [0] ++ contents
  let sha_string := sha_hash_str result
  let fs₁ := createDirAll fs (".git/objects/" ++ strTake sha_string 2)
  (sha_string, fsWrite fs₁ (mainObjectPath sha_string) (compress result))

/-- Modelled from the cat-file arm of main.rs main: read the object and, for
a blob, write its serialized bytes to stdout; the result is the byte output
(for a non-blob the source prints a fixed message). -/
def catFileCmd (fs : FS) (hash : String) : Except GitError (List Nat) :=
  match read_object fs hash with
  | .ok (.Blob blob) => .ok (GitBlob.serialize blob)
  | .ok _ => .ok (strBytes "unexpected object type for cat-file\n")
  | .error e => .error e

/-- Modelled from the hash-object arm of main.rs main: the file path is the
last argument (whether or not a -w flag is present), its bytes are read
(unwrap), and write_object is always called — there is no write-flag check. -/
def hashObjectCmd (fs : FS) (args : List String) : Except GitError (String × FS) :=
  match args.getLast? with
  | none => .error (.panicked "index out of bounds")
  | some file_path =>
    match fsRead fs file_path with
    | none => .error (.panicked "fs read unwrap failed")
    | some data =>
      let object : GitBlob := ⟨data⟩
      .ok (write_object fs (GitBlob.serialize object) (strBytes "blob"))

/-- Sign-aware zero padding to width three with an explicit sign, modelling
the Rust format specifier {:+03} applied to the offset hours. -/
def fmtPlus03 (n : Int) : String :=
  (if n < 0 then "-" else "+") ++
    (if n.natAbs < 10 then "0" ++ natDecimalStr n.natAbs else natDecimalStr n.natAbs)

/-- Sign-aware zero padding to width two, modelling the Rust format
specifier {:02} applied to the offset minutes (which can be negative). -/
def fmt02 (n : Int) : String :=
  if n < 0 then "-" ++ natDecimalStr n.natAbs
  else if n.natAbs < 10 then "0" ++ natDecimalStr n.natAbs
  else natDecimalStr n.natAbs

/-- Modelled from the offset computation in main.rs commit: truncating
division and remainder on the local-minus-UTC seconds, each part formatted
separately. -/
def offsetString (offset_seconds : Int) : String :=
  fmtPlus03 (offset_seconds.tdiv 3600) ++ fmt02 ((offset_seconds.tmod 3600).tdiv 60)

/-- Modelled from main.rs commit (identical to main1.rs
write_new_git_commit): the commit text, with the impure reads of the current
time and local UTC offset lifted into the timestamp and offset parameters.
The parent line is unconditional: the function has no no-parent path. -/
def commitPayload (tree_hash message parent_hash : String) (timestamp : Nat)
    (offset_seconds : Int) : String :=
  let author_contents :=
    "Kevin Guo" ++ " <" ++ "kev.guo123@gmail.com" ++ "> " ++ natDecimalStr timestamp ++ " " ++
      offsetString offset_seconds
  joinWith "\n"
    ["tree " ++ tree_hash, "parent " ++ parent_hash, "author " ++ author_contents,
     "committer " ++ author_contents, "", message, ""]

/-- Modelled from main.rs commit: serialize the commit text and store it
through write_object under kind commit. -/
def commit (fs : FS) (tree_hash message parent_hash : String) (timestamp : Nat)
    (offset_seconds : Int) : String × FS :=
  let c : GitCommit := ⟨commitPayload tree_hash message parent_hash timestamp offset_seconds⟩
  write_object fs (GitCommit.serialize c) (strBytes "commit")

/-- Modelled from Iterator::position over the argument vector. -/
def argPosition (args : List String) (x : String) : Option Nat :=
  args.findIdx? (fun a => a == x)

/-- Modelled from the commit-tree arm of main.rs main: the positions of the
-p flag, the -m flag and the literal commit-tree argument are all taken with
unwrap, so a missing -p (or -m) flag panics rather than omitting the parent
line; the argument after each position is then read (out of bounds panics). -/
def commitTreeCmd (fs : FS) (args : List String) (timestamp : Nat) (offset_seconds : Int) :
    Except GitError (String × FS) :=
  match argPosition args "-p" with
  | none => .error (.panicked "unwrap on None: no -p flag")
  | some parent_hash_index =>
    match args[parent_hash_index + 1]? with
    | none => .error (.panicked "index out of bounds")
    | some parent_hash =>
      match argPosition args "-m" with
      | none => .error (.panicked "unwrap on None: no -m flag")
      | some message_index =>
        match args[message_index + 1]? with
        | none => .error (.panicked "index out of bounds")
        | some message =>
          match argPosition args "commit-tree" with
          | none => .error (.panicked "unwrap on None: no commit-tree argument")
          | some commit_tree_index =>
            match args[commit_tree_index + 1]? with
            | none => .error (.panicked "index out of bounds")
            | some tree_hash =>
              .ok (commit fs tree_hash message parent_hash timestamp offset_seconds)

/-- Directory listing entry for the write_tree walk: a regular file with its
contents, or a subdirectory with its own listing. The list order models the
arbitrary order in which fs::read_dir reports entries. -/
inductive FsNode where
  | file (name : String) (content : List Nat)
  | dir (name : String) (children : List FsNode)

/-- Serialize the accumulated leaves as a tree and store the tree object,
modelling the tail of main.rs write_tree after its entry loop. -/
def storeTree (fs : FS) (leaves : List GitTreeLeaf) : Except GitError (String × FS) :=
  match GitTree.serialize ⟨leaves⟩ with
  | some tree_ser => .ok (write_object fs tree_ser (strBytes "tree"))
  | none => .error (.panicked "hex decode unwrap failed")

/-- Modelled from the entry loop of main.rs write_tree: entries named .git
are skipped; a file is stored as a blob first and then recorded with mode
100644; a directory is recursively written first (child tree fully stored)
and then recorded with mode 040000. -/
def writeEntries (fs : FS) : List FsNode → Except GitError (List GitTreeLeaf × FS)
  | [] => .ok ([], fs)
  | .file name content :: rest =>
    if name = ".git" then writeEntries fs rest
    else
      match write_object fs content (strBytes "blob") with
      | (sha, fs₁) =>
        match writeEntries fs₁ rest with
        | .ok (leaves, fs₂) => .ok (⟨strBytes "100644", name, sha⟩ :: leaves, fs₂)
        | .error e => .error e
  | .dir name children :: rest =>
    if name = ".git" then writeEntries fs rest
    else
      match writeEntries fs children with
      | .ok (child_leaves, fs₁) =>
        match storeTree fs₁ child_leaves with
        | .ok (sha, fs₂) =>
          match writeEntries fs₂ rest with
          | .ok (leaves, fs₃) => .ok (⟨strBytes "040000", name, sha⟩ :: leaves, fs₃)
          | .error e => .error e
        | .error e => .error e
      | .error e => .error e

/-- Modelled from main.rs write_tree: process the directory entries, then
serialize and store the accumulated tree, returning its id. -/
def write_tree (fs : FS) (entries : List FsNode) : Except GitError (String × FS) :=
  match writeEntries fs entries with
  | .ok (leaves, fs₁) => storeTree fs₁ leaves
  | .error e => .error e

/-- An object with the given id is present in the store. -/
def storedAt (fs : FS) (sha : String) : Prop :=
  (fsRead fs (mainObjectPath sha)).isSome = true

instance (fs : FS) (sha : String) : Decidable (storedAt fs sha) := by
  unfold storedAt
  infer_instance

end SrcMain

namespace SrcGit

/-- Modelled from git.rs object_dir. -/
def object_dir (repo sha : String) : String :=
  repo ++ "/.git/objects/" ++ strTake sha 2

/-- Modelled from git.rs object_file. -/
def object_file (repo sha : String) : String :=
  object_dir repo sha ++ "/" ++ strDrop sha 2

/-- Modelled from git.rs Object: the decompressed bytes with the space
index, the payload start index and the declared payload size. -/
structure Object where
  bytes : List Nat
  space_idx : Nat
  contents_idx : Nat
  contents_size : Nat
deriving DecidableEq

/-- Composition of UTF-8 decoding and usize parsing applied to the declared
length token, as git.rs read_object does in two expect steps. -/
def decodeSize (bs : List Nat) : Option Nat :=
  match utf8Decode bs with
  | some cs => parseUsize (String.mk cs)
  | none => none

/-- Modelled from git.rs read_object: open and read the object file (expect
panics if missing), decompress, find the first space (expect), find the
first NUL at or after the space (expect), parse the bytes between them as
UTF-8 (expect) and then as usize (expect). The size is recorded but not
checked here. -/
def read_object (repo : String) (fs : FS) (sha : String) : Except GitError Object :=
  match fsRead fs (object_file repo sha) with
  | none => .error (.panicked "Failed to open file")
  | some compressed_bytes =>
    let decompressed_bytes := decompress compressed_bytes
    match decompressed_bytes.findIdx? (fun x => x == 32) with
    | none => .error (.panicked "Could not find space")
    | some space_idx =>
      match (decompressed_bytes.drop space_idx).findIdx? (fun x => x == 0) with
      | none => .error (.panicked "Could not find null terminator")
      | some rel =>
        let null_idx := space_idx + rel
        let size_bytes := (decompressed_bytes.drop (space_idx + 1)).take (null_idx - (space_idx + 1))
        match utf8Decode size_bytes with
        | none => .error (.panicked "Unable to parse size")
        | some size_chars =>
          match parseUsize (String.mk size_chars) with
          | none => .error (.panicked "Unable to parse size string")
          | some contents_size =>
            .ok ⟨decompressed_bytes, space_idx, null_idx + 1, contents_size⟩

/-- Modelled from git.rs cat_file: read the object, panic if the declared
size differs from the actual payload length, convert the payload to UTF-8
text (expect), and require the kind bytes before the space to be blob. -/
def cat_file (repo : String) (fs : FS) (sha : String) : Except GitError String :=
  match read_object repo fs sha with
  | .error e => .error e
  | .ok object =>
    let contents_slice := object.bytes.drop object.contents_idx
    if object.contents_size ≠ contents_slice.length then
      .error (.panicked "Size does not match contents size")
    else
      match utf8Decode contents_slice with
      | none => .error (.panicked "Failed to convert contents")
      | some contents =>
        if object.bytes.take object.space_idx = strBytes "blob" then .ok (String.mk contents)
        else .error (.panicked "Could not match object type")

/-- Modelled from git.rs hash_object: build the envelope, compress it, hash
it, create the object subdirectory with create_dir — which panics via expect
when that directory already exists — then create and write the object file. -/
def hash_object (repo : String) (fs : FS) (object_type : String) (contents : List Nat) :
    Except GitError (String × FS) :=
  let object := strBytes object_type ++ [32] ++ strBytes (natDecimalStr contents.length) ++ [0] ++ contents
  let compressed_contents := compress object
  let sha := sha_hash_str object
  match createDir fs (object_dir repo sha) with
  | .error e => .error e
  | .ok fs₁ => .ok (sha, fsWrite fs₁ (object_file repo sha) compressed_contents)

end SrcGit

/- concrete fixtures used by the claim theorems -/

/-- A 40-character id used to address the claim-1 fixture object. -/
def claim1Hash : String := "aaaaaaaaaaaaaaaaaaaaaaaaaaaaaaaaaaaaaaaa"

/-- Store holding one object whose envelope declares length 5 but carries a
2-byte payload. -/
def claim1FS : FS :=
  ⟨[], [(SrcMain.mainObjectPath claim1Hash, compress (strBytes "blob 5" ++ [0] ++ strBytes "ab"))]⟩

/-- A file entry whose name ends in a backslash. -/
def claim2FileLeaf : SrcMain.GitTreeLeaf :=
  ⟨strBytes "100644", "a\\", "1111111111111111111111111111111111111111"⟩

/-- A directory entry named a. -/
def claim2DirLeaf : SrcMain.GitTreeLeaf :=
  ⟨strBytes "040000", "a", "2222222222222222222222222222222222222222"⟩

/-- A directory entry named a. -/
def claim3Dir : SrcMain.GitTreeLeaf :=
  ⟨strBytes "040000", "a", "1111111111111111111111111111111111111111"⟩

/-- A file entry named a0. -/
def claim3File : SrcMain.GitTreeLeaf :=
  ⟨strBytes "100644", "a0", "2222222222222222222222222222222222222222"⟩

/-- Store holding one source file f with contents hi. -/
def claim9FS : FS := ⟨[], [("f", strBytes "hi")]⟩

/-- Counterexample for claim C1: a stored object whose envelope declares
length 5 but carries the 2-byte payload ab is decoded by main.rs read_object
into a blob payload without any error — the declared length is never
checked, contradicting the claim that such a decode returns InvalidFormat. -/
theorem claim1_counterexample :
    SrcMain.read_object claim1FS claim1Hash = .ok (.Blob ⟨strBytes "ab"⟩) ∧
    (strBytes "ab").length ≠ 5 := by decide

/-- Counterexample for claim C2: a two-entry set in which a file named with
a trailing backslash and a directory named a share the sort key serializes
to different bytes under its two presentation orders, so serialization is
not a pure function of the entry set. -/
theorem claim2_counterexample :
    SrcMain.GitTree.serialize ⟨[claim2FileLeaf, claim2DirLeaf]⟩ ≠
      SrcMain.GitTree.serialize ⟨[claim2DirLeaf, claim2FileLeaf]⟩ := by decide

/-- Claim C3, code bug, evaluated at the failing input: the sort key of a
directory named a is the name followed by a backslash (0x5C) — although the
comment in the source says trailing slash — so the file a0 (0x30) sorts
before the directory a and is emitted first; with a true path separator
slash (0x2F) the directory would sort first. -/
theorem claim3_theorem :
    SrcMain.tree_leaf_sort_key claim3Dir = "a\\" ∧
    SrcMain.tree_leaf_sort_key claim3Dir ≠ "a/" ∧
    SrcMain.GitTree.serialize ⟨[claim3Dir, claim3File]⟩ =
      some (strBytes "100644 a0" ++ [0] ++ List.replicate 20 34 ++
            strBytes "40000 a" ++ [0] ++ List.replicate 20 17) := by decide

/-- Counterexample for claim C4: the id of the stored hello blob is not the
39-character string given in the claim. -/
theorem claim4_counterexample :
    (SrcMain.write_object ⟨[], []⟩ (strBytes "hello\n") (strBytes "blob")).1 ≠
      "ce013625030ba8dba906f756967f9e9ca394464" := by decide

/-- Claim C4, corrected. Storing a blob with payload hello plus newline
yields the 40-character id ce013625030ba8dba906f756967f9e9ca394464a (the
claim drops the final character), and retrieving that id through the
cat-file path returns exactly the original six bytes. -/
theorem claim4_amended :
    (SrcMain.write_object ⟨[], []⟩ (strBytes "hello\n") (strBytes "blob")).1 =
      "ce013625030ba8dba906f756967f9e9ca394464a" ∧
    SrcMain.catFileCmd (SrcMain.write_object ⟨[], []⟩ (strBytes "hello\n") (strBytes "blob")).2
        "ce013625030ba8dba906f756967f9e9ca394464a" = .ok (strBytes "hello\n") := by decide

/-- Counterexample for claim C5: fetching an id from an empty store panics
on the fs::read unwrap (modelled as the panicked error), which is not the
structured NotFound error the claim promises — the code has no error values
at all, only panics. -/
theorem claim5_counterexample :
    SrcMain.read_object ⟨[], []⟩ "ce013625030ba8dba906f756967f9e9ca394464a" =
      .error (.panicked "fs read unwrap failed") ∧
    (GitError.panicked "fs read unwrap failed") ≠ GitError.notFound := by decide

/-- Counterexample for claim C6: storing the same blob twice through git.rs
hash_object fails, because the second call re-creates the object
subdirectory with create_dir and panics on the already-exists error. -/
theorem claim6_counterexample :
    (match SrcGit.hash_object "repo" ⟨[], []⟩ "blob" (strBytes "hello\n") with
     | .ok r => SrcGit.hash_object "repo" r.2 "blob" (strBytes "hello\n")
     | .error e => .error e) = .error (.panicked "Failed to create sha object directory") := by decide

/-- Counterexample for claim C7: invoking commit-tree without a -p flag does
not produce a payload with the parent line omitted; it panics on the unwrap
of the flag position, so the parent is mandatory. -/
theorem claim7_counterexample :
    SrcMain.commitTreeCmd ⟨[], []⟩ ["/bin/git", "commit-tree", "abc", "-m", "message"] 1700000000 0
      = .error (.panicked "unwrap on None: no -p flag") := by decide

/-- Counterexample for claim C9: hash-object invoked without any write flag
still mutates the object store — the object file is absent before the call
and present afterwards. -/
theorem claim9_counterexample :
    fsRead claim9FS (SrcMain.mainObjectPath "32f95c0d1244a78b2be1bab8de17906fabb2c4a8") = none ∧
    (SrcMain.hashObjectCmd claim9FS ["/bin/git", "hash-object", "f"]).toOption.map
        (fun r => (r.1, fsRead r.2 (SrcMain.mainObjectPath r.1)))
      = some ("32f95c0d1244a78b2be1bab8de17906fabb2c4a8",
          some (compress (strBytes "blob 2" ++ [0] ++ strBytes "hi"))) := by decide

/- general lemmas about the filesystem model -/

theorem fsRead_fsWrite_self (fs : FS) (p : String) (d : List Nat) :
    fsRead (fsWrite fs p d) p = some d := by
  unfold fsRead fsWrite
  simp

theorem find?_filter_ne (l : List (String × List Nat)) (p q : String) (h : p ≠ q) :
    (l.filter (fun e => !(e.1 == q))).find? (fun e => e.1 == p) =
      l.find? (fun e => e.1 == p) := by
  induction l with
  | nil => rfl
  | cons e rest ih =>
    by_cases he : e.1 = q
    · have h1 : (e.1 == q) = true := by simp [he]
      have h2 : (e.1 == p) = false := by simp [he]; intro hc; exact absurd hc.symm h
      simp [List.filter_cons, h1, List.find?_cons, h2, ih]
    · have h1 : (e.1 == q) = false := by simp [he]
      by_cases hp : e.1 = p
      · have h2 : (e.1 == p) = true := by simp [hp]
        simp [List.filter_cons, h1, List.find?_cons, h2]
      · have h2 : (e.1 == p) = false := by simp [hp]
        simp [List.filter_cons, h1, List.find?_cons, h2, ih]

theorem fsRead_fsWrite_ne (fs : FS) (p q : String) (d : List Nat) (h : p ≠ q) :
    fsRead (fsWrite fs q d) p = fsRead fs p := by
  unfold fsRead fsWrite
  have h1 : (q == p) = false := by simp; intro hc; exact absurd hc.symm h
  simp only [List.find?_cons, h1]
  rw [find?_filter_ne fs.files p q h]

/-- Claim C5, corrected. When no file exists at the id-derived object path,
main.rs read_object panics on the unwrap of fs::read — modelled as the
panicked error — rather than returning a NotFound error value; no NotFound
or IoFailure error value exists anywhere in the code. -/
theorem claim5_amended (fs : FS) (hash : String)
    (h : fsRead fs (SrcMain.mainObjectPath hash) = none) :
    SrcMain.read_object fs hash = .error (.panicked "fs read unwrap failed") ∧
    SrcMain.read_object fs hash ≠ .error .notFound := by
  unfold SrcMain.read_object
  rw [h]
  exact ⟨rfl, by intro hc; cases hc⟩

/-- Witness for claim C5 at a concrete empty store. -/
theorem claim5_witness :
    SrcMain.read_object ⟨[], []⟩ "ce013625030ba8dba906f756967f9e9ca394464a" =
        .error (.panicked "fs read unwrap failed") ∧
    SrcMain.read_object ⟨[], []⟩ "ce013625030ba8dba906f756967f9e9ca394464a" ≠
        .error .notFound :=
  claim5_amended ⟨[], []⟩ "ce013625030ba8dba906f756967f9e9ca394464a" (by decide)

/-- Claim C9, corrected. The hash-object command reads the file named by the
last argument and always persists the object: it returns the id of the
stored blob and the object file is present in the resulting store, whether
or not a write flag was passed (the source never inspects a -w flag). -/
theorem claim9_amended (fs : FS) (args : List String) (p : String) (c : List Nat)
    (h₁ : args.getLast? = some p) (h₂ : fsRead fs p = some c) :
    SrcMain.hashObjectCmd fs args = .ok (SrcMain.write_object fs c (strBytes "blob")) ∧
    fsRead (SrcMain.write_object fs c (strBytes "blob")).2
        (SrcMain.mainObjectPath (SrcMain.write_object fs c (strBytes "blob")).1)
      = some (compress (strBytes "blob" ++ [32] ++ strBytes (natDecimalStr c.length) ++ [0] ++ c)) := by
  constructor
  · unfold SrcMain.hashObjectCmd
    simp only [h₁, h₂]
    rfl
  · unfold SrcMain.write_object
    exact fsRead_fsWrite_self _ _ _

/-- Witness for claim C9: hash-object invoked without a write flag still
stores the blob. -/
theorem claim9_witness :
    SrcMain.hashObjectCmd claim9FS ["/bin/git", "hash-object", "f"] =
        .ok (SrcMain.write_object claim9FS (strBytes "hi") (strBytes "blob")) ∧
    fsRead (SrcMain.write_object claim9FS (strBytes "hi") (strBytes "blob")).2
        (SrcMain.mainObjectPath (SrcMain.write_object claim9FS (strBytes "hi") (strBytes "blob")).1)
      = some (compress (strBytes "blob" ++ [32] ++ strBytes (natDecimalStr (strBytes "hi").length) ++ [0] ++ strBytes "hi")) :=
  claim9_amended claim9FS ["/bin/git", "hash-object", "f"] "f" (strBytes "hi") (by decide) (by decide)

/-- Claim C6, corrected (main.rs half). Storing the same content twice
through main.rs write_object is an identity on the store: the second call
returns the same id and leaves the filesystem exactly as the first call
left it, because create_dir_all tolerates the existing directory and
fs::write overwrites the existing object file. -/
theorem claim6_amended (fs : FS) (contents object_type : List Nat) :
    (SrcMain.write_object (SrcMain.write_object fs contents object_type).2 contents object_type).1
      = (SrcMain.write_object fs contents object_type).1 ∧
    (SrcMain.write_object (SrcMain.write_object fs contents object_type).2 contents object_type).2
      = (SrcMain.write_object fs contents object_type).2 := by
  constructor
  · rfl
  · unfold SrcMain.write_object createDirAll fsWrite
    by_cases hd : (".git/objects/" ++
        strTake (sha_hash_str (object_type ++ [32] ++ strBytes (natDecimalStr contents.length) ++ [0] ++ contents)) 2) ∈ fs.dirs
    · simp only [hd, if_pos, List.mem_cons, true_or, if_true]
      simp [List.filter_cons, List.filter_filter]
    · simp only [hd, if_neg, if_false, List.mem_cons, true_or, if_true]
      simp [List.filter_cons, List.filter_filter]

/-- Claim C7, corrected. The serialized commit payload is the newline-joined
sequence: a tree line, an unconditional parent line (the code has no
no-parent path: invoking commit-tree without -p panics, see the
counterexample), an author line and a committer line each carrying the
hardcoded identity, the epoch seconds and the formatted local UTC offset,
an empty line, the message, and a trailing empty line. -/
theorem claim7_amended (T P M : String) (ts : Nat) (off : Int) :
    SrcMain.commitPayload T M P ts off =
      "tree " ++ T ++ "\nparent " ++ P ++ "\nauthor Kevin Guo <kev.guo123@gmail.com> " ++
        natDecimalStr ts ++ " " ++ SrcMain.offsetString off ++
        "\ncommitter Kevin Guo <kev.guo123@gmail.com> " ++ natDecimalStr ts ++ " " ++
        SrcMain.offsetString off ++ "\n\n" ++ M ++ "\n" := by
  apply String.ext
  simp [SrcMain.commitPayload, joinWith, String.data_append]

/-- Claim C1, corrected. In the git.rs retrieval pipeline (read_object
followed by cat_file, whose panics are modelled as errors) decoding fails in
all four listed situations: when no space is found, when no NUL occurs at or
after the space, when the length token fails UTF-8 decoding or usize
parsing, and when the declared length differs from the number of bytes after
the NUL. main.rs read_object, by contrast, checks only the first two
situations and ignores the length token entirely (see the counterexample). -/
theorem claim1_amended (repo : String) (fs : FS) (sha : String) (d : List Nat)
    (h : fsRead fs (SrcGit.object_file repo sha) = some d) :
    (d.findIdx? (fun x => x == 32) = none →
        SrcGit.cat_file repo fs sha = .error (.panicked "Could not find space")) ∧
    (∀ s, d.findIdx? (fun x => x == 32) = some s →
        (d.drop s).findIdx? (fun x => x == 0) = none →
        SrcGit.cat_file repo fs sha = .error (.panicked "Could not find null terminator")) ∧
    (∀ s r, d.findIdx? (fun x => x == 32) = some s →
        (d.drop s).findIdx? (fun x => x == 0) = some r →
        SrcGit.decodeSize ((d.drop (s + 1)).take (s + r - (s + 1))) = none →
        (SrcGit.cat_file repo fs sha = .error (.panicked "Unable to parse size") ∨
         SrcGit.cat_file repo fs sha = .error (.panicked "Unable to parse size string"))) ∧
    (∀ s r L, d.findIdx? (fun x => x == 32) = some s →
        (d.drop s).findIdx? (fun x => x == 0) = some r →
        SrcGit.decodeSize ((d.drop (s + 1)).take (s + r - (s + 1))) = some L →
        L ≠ d.length - (s + r + 1) →
        SrcGit.cat_file repo fs sha = .error (.panicked "Size does not match contents size")) := by
  refine ⟨?_, ?_, ?_, ?_⟩
  · intro hs
    unfold SrcGit.cat_file SrcGit.read_object
    simp only [h, decompress, hs]
  · intro s hs hn
    unfold SrcGit.cat_file SrcGit.read_object
    simp only [h, decompress, hs, hn]
  · intro s r hs hn hsz
    unfold SrcGit.decodeSize at hsz
    unfold SrcGit.cat_file SrcGit.read_object
    simp only [h, decompress, hs, hn]
    rcases hu : utf8Decode ((d.drop (s + 1)).take (s + r - (s + 1))) with _ | cs
    · rw [hu] at hsz
      simp only [hu]
      left
      trivial
    · have hp : parseUsize ⟨cs⟩ = none := by rw [hu] at hsz; exact hsz
      simp only [hu, hp]
      right
      trivial
  · intro s r L hs hn hsz hne
    unfold SrcGit.decodeSize at hsz
    unfold SrcGit.cat_file SrcGit.read_object
    simp only [h, decompress, hs, hn]
    rcases hu : utf8Decode ((d.drop (s + 1)).take (s + r - (s + 1))) with _ | cs
    · rw [hu] at hsz; cases hsz
    · have hp : parseUsize ⟨cs⟩ = some L := by rw [hu] at hsz; exact hsz
      simp only [hu, hp]
      have hlen : (d.drop (s + r + 1)).length = d.length - (s + r + 1) := by
        simp [List.length_drop]
      rw [if_pos]
      rw [hlen]
      exact hne

/-- Witness for claim C1: each of the four failure conditions produces an
error on a concrete stored object. -/
theorem claim1_witness :
    SrcGit.cat_file "r" ⟨[], [(SrcGit.object_file "r" claim1Hash, [1, 2, 3])]⟩ claim1Hash
        = .error (.panicked "Could not find space") ∧
    SrcGit.cat_file "r" ⟨[], [(SrcGit.object_file "r" claim1Hash, [98, 32])]⟩ claim1Hash
        = .error (.panicked "Could not find null terminator") ∧
    (SrcGit.cat_file "r" ⟨[], [(SrcGit.object_file "r" claim1Hash, [98, 32, 120, 0])]⟩ claim1Hash
        = .error (.panicked "Unable to parse size") ∨
     SrcGit.cat_file "r" ⟨[], [(SrcGit.object_file "r" claim1Hash, [98, 32, 120, 0])]⟩ claim1Hash
        = .error (.panicked "Unable to parse size string")) ∧
    SrcGit.cat_file "r" ⟨[], [(SrcGit.object_file "r" claim1Hash, [98, 32, 53, 0, 97, 98])]⟩ claim1Hash
        = .error (.panicked "Size does not match contents size") :=
  ⟨(claim1_amended "r" ⟨[], [(SrcGit.object_file "r" claim1Hash, [1, 2, 3])]⟩ claim1Hash
        [1, 2, 3] (by decide)).1 (by decide),
   (claim1_amended "r" ⟨[], [(SrcGit.object_file "r" claim1Hash, [98, 32])]⟩ claim1Hash
        [98, 32] (by decide)).2.1 1 (by decide) (by decide),
   (claim1_amended "r" ⟨[], [(SrcGit.object_file "r" claim1Hash, [98, 32, 120, 0])]⟩ claim1Hash
        [98, 32, 120, 0] (by decide)).2.2.1 1 2 (by decide) (by decide) (by decide),
   (claim1_amended "r" ⟨[], [(SrcGit.object_file "r" claim1Hash, [98, 32, 53, 0, 97, 98])]⟩ claim1Hash
        [98, 32, 53, 0, 97, 98] (by decide)).2.2.2 1 2 5 (by decide) (by decide) (by decide) (by decide)⟩

/- lemmas about decimal rendering, used for claim C10 -/

theorem natDecimalGo_append : ∀ (fuel n : Nat) (acc : List Char),
    natDecimalGo fuel n acc = natDecimalGo fuel n [] ++ acc := by
  intro fuel
  induction fuel with
  | zero => intro n acc; simp [natDecimalGo]
  | succ fuel ih =>
    intro n acc
    by_cases h : n < 10
    · simp [natDecimalGo, h]
    · simp only [natDecimalGo, if_neg h]
      rw [ih (n / 10) (digitChar (n % 10) :: acc), ih (n / 10) [digitChar (n % 10)]]
      simp

theorem natDecimalGo_fuel : ∀ (f₁ f₂ n : Nat) (acc : List Char),
    n < f₁ → n < f₂ → natDecimalGo f₁ n acc = natDecimalGo f₂ n acc := by
  intro f₁
  induction f₁ with
  | zero => intro f₂ n acc h₁ h₂; exact absurd h₁ (Nat.not_lt_zero n)
  | succ f₁ ih =>
    intro f₂ n acc h₁ h₂
    cases f₂ with
    | zero => exact absurd h₂ (Nat.not_lt_zero n)
    | succ f₂ =>
      by_cases h : n < 10
      · simp [natDecimalGo, h]
      · simp only [natDecimalGo, if_neg h]
        have hdiv : n / 10 < n := Nat.div_lt_self (by omega) (by omega)
        exact ih f₂ (n / 10) _ (by omega) (by omega)

theorem natDecimal_small (n : Nat) (h : n < 10) : natDecimal n = [digitChar n] := by
  simp [natDecimal, natDecimalGo, h, Nat.mod_eq_of_lt h]

theorem natDecimal_step (n : Nat) (h : 10 ≤ n) :
    natDecimal n = natDecimal (n / 10) ++ [digitChar (n % 10)] := by
  have hlt : ¬ n < 10 := by omega
  have hdiv : n / 10 < n := Nat.div_lt_self (by omega) (by omega)
  unfold natDecimal
  rw [show natDecimalGo (n + 1) n [] = natDecimalGo n (n / 10) [digitChar (n % 10)] from by
    simp [natDecimalGo, hlt]]
  rw [natDecimalGo_fuel n (n / 10 + 1) (n / 10) _ hdiv (by omega)]
  rw [natDecimalGo_append]

theorem natDecimal_ne_nil (n : Nat) : natDecimal n ≠ [] := by
  by_cases h : n < 10
  · rw [natDecimal_small n h]; simp
  · rw [natDecimal_step n (by omega)]; simp

theorem digitChar_inj : ∀ a < 10, ∀ b < 10, digitChar a = digitChar b → a = b := by decide

theorem natDecimal_inj : ∀ n m : Nat, natDecimal n = natDecimal m → n = m := by
  intro n
  induction n using Nat.strong_induction_on with
  | _ n ih =>
    intro m h
    by_cases hn : n < 10 <;> by_cases hm : m < 10
    · rw [natDecimal_small n hn, natDecimal_small m hm] at h
      have hd : digitChar n = digitChar m := by injection h
      exact digitChar_inj n hn m hm hd
    · rw [natDecimal_small n hn, natDecimal_step m (by omega)] at h
      rcases hx : natDecimal (m / 10) with _ | ⟨c, cs⟩
      · exact absurd hx (natDecimal_ne_nil (m / 10))
      · rw [hx] at h
        simp at h
    · rw [natDecimal_step n (by omega), natDecimal_small m hm] at h
      rcases hx : natDecimal (n / 10) with _ | ⟨c, cs⟩
      · exact absurd hx (natDecimal_ne_nil (n / 10))
      · rw [hx] at h
        simp at h
    · rw [natDecimal_step n (by omega), natDecimal_step m (by omega)] at h
      have hp := List.append_inj' h (by simp)
      have hdiv : n / 10 = m / 10 :=
        ih (n / 10) (Nat.div_lt_self (by omega) (by omega)) (m / 10) hp.1
      have hd : digitChar (n % 10) = digitChar (m % 10) := by
        have := hp.2
        injection this
      have hmod : n % 10 = m % 10 :=
        digitChar_inj (n % 10) (Nat.mod_lt n (by omega)) (m % 10) (Nat.mod_lt m (by omega)) hd
      omega

theorem appendMidInj (X Y Z a b : List Char)
    (h : X ++ a ++ Y ++ a ++ Z = X ++ b ++ Y ++ b ++ Z) : a = b := by
  have hlen := congrArg List.length h
  simp [List.length_append] at hlen
  simp only [List.append_assoc] at h
  have h₁ := List.append_cancel_left h
  have h₂ := List.append_inj h₁ (by omega)
  exact h₂.1

theorem data_mk (l : List Char) : (String.mk l).data = l := rfl

theorem commitPayload_split (T P M : String) (ts : Nat) (off : Int) :
    (SrcMain.commitPayload T M P ts off).data =
      ("tree " ++ T ++ "\nparent " ++ P ++ "\nauthor Kevin Guo <kev.guo123@gmail.com> ").data ++
      natDecimal ts ++
      (" " ++ SrcMain.offsetString off ++ "\ncommitter Kevin Guo <kev.guo123@gmail.com> ").data ++
      natDecimal ts ++
      (" " ++ SrcMain.offsetString off ++ "\n\n" ++ M ++ "\n").data := by
  simp [SrcMain.commitPayload, joinWith, String.data_append, natDecimalStr, data_mk]

/-- Claim C10, confirmed. The commit id is not a function of the tree id,
parent id and message alone: for fixed tree, parent, message and offset, two
distinct epoch-second timestamps always produce distinct commit payloads
(the payload embeds the timestamp in the author and committer lines), and at
a concrete pair of invocation times the stored commit ids differ as well. -/
theorem claim10_theorem :
    (∀ (T P M : String) (off : Int) (t₁ t₂ : Nat),
        t₁ ≠ t₂ → SrcMain.commitPayload T M P t₁ off ≠ SrcMain.commitPayload T M P t₂ off) ∧
    (SrcMain.commit ⟨[], []⟩ "t" "m" "p" 0 0).1 ≠ (SrcMain.commit ⟨[], []⟩ "t" "m" "p" 1 0).1 := by
  constructor
  · intro T P M off t₁ t₂ hne h
    apply hne
    apply natDecimal_inj
    have hd := congrArg String.data h
    rw [commitPayload_split, commitPayload_split] at hd
    exact appendMidInj _ _ _ _ _ hd
  · decide

/-- Witness for claim C10 at two concrete timestamps. -/
theorem claim10_witness :
    SrcMain.commitPayload "t" "m" "p" 0 0 ≠ SrcMain.commitPayload "t" "m" "p" 1 0 :=
  claim10_theorem.1 "t" "p" "m" 0 0 1 (by decide)

/- lemmas about the stable key sort, used for claim C2 -/

theorem char_eq_of_toNat_eq {a b : Char} (h : a.toNat = b.toNat) : a = b := by
  have ha := Char.ofNat_toNat a
  have hb := Char.ofNat_toNat b
  rw [← ha, ← hb, h]

theorem charListLe_cons_iff (a b : Char) (as bs : List Char) :
    SrcMain.charListLe (a :: as) (b :: bs) = true ↔
      a.toNat < b.toNat ∨ (a.toNat = b.toNat ∧ SrcMain.charListLe as bs = true) := by
  simp only [SrcMain.charListLe]
  rcases Nat.lt_trichotomy a.toNat b.toNat with h | h | h
  · simp [h]
  · have h₁ : ¬ a.toNat < b.toNat := by omega
    have h₂ : ¬ b.toNat < a.toNat := by omega
    simp [h₁, h₂, h]
  · have h₁ : ¬ a.toNat < b.toNat := by omega
    have h₃ : ¬ a.toNat = b.toNat := by omega
    simp [h₁, h, h₃]

theorem charListLe_total : ∀ xs ys : List Char,
    SrcMain.charListLe xs ys = true ∨ SrcMain.charListLe ys xs = true := by
  intro xs
  induction xs with
  | nil => intro ys; left; rfl
  | cons a as ih =>
    intro ys
    cases ys with
    | nil => right; rfl
    | cons b bs =>
      rw [charListLe_cons_iff, charListLe_cons_iff]
      rcases Nat.lt_trichotomy a.toNat b.toNat with h | h | h
      · left; left; exact h
      · rcases ih bs with hc | hc
        · left; right; exact ⟨h, hc⟩
        · right; right; exact ⟨h.symm, hc⟩
      · right; left; exact h

theorem charListLe_trans : ∀ xs ys zs : List Char,
    SrcMain.charListLe xs ys = true → SrcMain.charListLe ys zs = true →
    SrcMain.charListLe xs zs = true := by
  intro xs
  induction xs with
  | nil => intro ys zs _ _; rfl
  | cons a as ih =>
    intro ys zs hxy hyz
    cases ys with
    | nil => simp [SrcMain.charListLe] at hxy
    | cons b bs =>
      cases zs with
      | nil => simp [SrcMain.charListLe] at hyz
      | cons c cs =>
        rw [charListLe_cons_iff] at hxy hyz ⊢
        rcases hxy with h | ⟨he, hr⟩ <;> rcases hyz with h₂ | ⟨he₂, hr₂⟩
        · left; omega
        · left; omega
        · left; omega
        · right; exact ⟨by omega, ih bs cs hr hr₂⟩

theorem charListLe_antisymm : ∀ xs ys : List Char,
    SrcMain.charListLe xs ys = true → SrcMain.charListLe ys xs = true → xs = ys := by
  intro xs
  induction xs with
  | nil =>
    intro ys h₁ h₂
    cases ys with
    | nil => rfl
    | cons b bs => simp [SrcMain.charListLe] at h₂
  | cons a as ih =>
    intro ys h₁ h₂
    cases ys with
    | nil => simp [SrcMain.charListLe] at h₁
    | cons b bs =>
      rw [charListLe_cons_iff] at h₁ h₂
      rcases h₁ with h | ⟨he, hr⟩ <;> rcases h₂ with h₂ | ⟨he₂, hr₂⟩
      · omega
      · omega
      · omega
      · have heq : a = b := char_eq_of_toNat_eq he
        rw [heq, ih bs hr hr₂]

theorem keyLe_total (x y : SrcMain.GitTreeLeaf) :
    SrcMain.keyLe x y = true ∨ SrcMain.keyLe y x = true :=
  charListLe_total _ _

theorem keyLe_trans {x y z : SrcMain.GitTreeLeaf}
    (h₁ : SrcMain.keyLe x y = true) (h₂ : SrcMain.keyLe y z = true) :
    SrcMain.keyLe x z = true :=
  charListLe_trans _ _ _ h₁ h₂

theorem keyLe_antisymm {x y : SrcMain.GitTreeLeaf}
    (h₁ : SrcMain.keyLe x y = true) (h₂ : SrcMain.keyLe y x = true) :
    SrcMain.tree_leaf_sort_key x = SrcMain.tree_leaf_sort_key y :=
  String.ext (charListLe_antisymm _ _ h₁ h₂)

theorem insertLeaf_perm (x : SrcMain.GitTreeLeaf) (l : List SrcMain.GitTreeLeaf) :
    (SrcMain.insertLeaf x l).Perm (x :: l) := by
  induction l with
  | nil => exact List.Perm.refl _
  | cons y ys ih =>
    by_cases h : SrcMain.keyLe x y = true
    · simp [SrcMain.insertLeaf, h]
    · simp only [SrcMain.insertLeaf, h, if_false]
      exact (ih.cons y).trans (List.Perm.swap x y ys)

theorem sortLeaves_perm (l : List SrcMain.GitTreeLeaf) : (SrcMain.sortLeaves l).Perm l := by
  induction l with
  | nil => exact List.Perm.refl _
  | cons x xs ih =>
    exact (insertLeaf_perm x (SrcMain.sortLeaves xs)).trans (ih.cons x)

theorem insertLeaf_pairwise (x : SrcMain.GitTreeLeaf) (l : List SrcMain.GitTreeLeaf)
    (h : l.Pairwise (fun a b => SrcMain.keyLe a b = true)) :
    (SrcMain.insertLeaf x l).Pairwise (fun a b => SrcMain.keyLe a b = true) := by
  induction l with
  | nil => simp [SrcMain.insertLeaf]
  | cons y ys ih =>
    rcases List.pairwise_cons.mp h with ⟨hy, hys⟩
    by_cases hxy : SrcMain.keyLe x y = true
    · simp only [SrcMain.insertLeaf, hxy, if_true]
      refine List.pairwise_cons.mpr ⟨?_, h⟩
      intro z hz
      rcases List.mem_cons.mp hz with hz | hz
      · rw [hz]; exact hxy
      · exact keyLe_trans hxy (hy z hz)
    · simp only [SrcMain.insertLeaf, hxy, if_false]
      refine List.pairwise_cons.mpr ⟨?_, ih hys⟩
      intro z hz
      have hz' := (insertLeaf_perm x ys).mem_iff.mp hz
      rcases List.mem_cons.mp hz' with hz' | hz'
      · rw [hz']
        rcases keyLe_total x y with hc | hc
        · exact absurd hc hxy
        · exact hc
      · exact hy z hz'

theorem sortLeaves_pairwise (l : List SrcMain.GitTreeLeaf) :
    (SrcMain.sortLeaves l).Pairwise (fun a b => SrcMain.keyLe a b = true) := by
  induction l with
  | nil => simp [SrcMain.sortLeaves]
  | cons x xs ih => exact insertLeaf_pairwise x (SrcMain.sortLeaves xs) ih

theorem sorted_eq_of_perm_of_nodup_keys (l₁ l₂ : List SrcMain.GitTreeLeaf)
    (hp : l₁.Perm l₂)
    (h₁ : l₁.Pairwise (fun a b => SrcMain.keyLe a b = true))
    (h₂ : l₂.Pairwise (fun a b => SrcMain.keyLe a b = true))
    (hk : (l₁.map SrcMain.tree_leaf_sort_key).Nodup) : l₁ = l₂ := by
  haveI : IsAntisymm SrcMain.GitTreeLeaf
      (fun a b => SrcMain.keyLe a b = true ∧
        SrcMain.tree_leaf_sort_key a ≠ SrcMain.tree_leaf_sort_key b) := by
    constructor
    intro a b hab hba
    exact absurd (keyLe_antisymm hab.1 hba.1) hab.2
  have hk₂ : (l₂.map SrcMain.tree_leaf_sort_key).Nodup :=
    ((hp.map SrcMain.tree_leaf_sort_key).nodup_iff).mp hk
  have hne₁ : l₁.Pairwise
      (fun a b => SrcMain.tree_leaf_sort_key a ≠ SrcMain.tree_leaf_sort_key b) :=
    List.pairwise_map.mp hk
  have hne₂ : l₂.Pairwise
      (fun a b => SrcMain.tree_leaf_sort_key a ≠ SrcMain.tree_leaf_sort_key b) :=
    List.pairwise_map.mp hk₂
  exact List.eq_of_perm_of_sorted hp (h₁.and hne₁) (h₂.and hne₂)

/-- Claim C2, corrected. Serialization of a tree is independent of the order
in which the entries were presented, provided the entries have pairwise
distinct sort keys; two distinct entries can share a key (the sort is merely
stable), and then the presentation order leaks into the output — see the
counterexample, where a file named with a trailing backslash and a directory
collide although their names differ. -/
theorem claim2_amended (l₁ l₂ : List SrcMain.GitTreeLeaf) (hp : l₁.Perm l₂)
    (hk : (l₁.map SrcMain.tree_leaf_sort_key).Nodup) :
    SrcMain.GitTree.serialize ⟨l₁⟩ = SrcMain.GitTree.serialize ⟨l₂⟩ := by
  unfold SrcMain.GitTree.serialize
  have hs : SrcMain.sortLeaves l₁ = SrcMain.sortLeaves l₂ := by
    apply sorted_eq_of_perm_of_nodup_keys
    · exact (sortLeaves_perm l₁).trans (hp.trans (sortLeaves_perm l₂).symm)
    · exact sortLeaves_pairwise l₁
    · exact sortLeaves_pairwise l₂
    · exact (((sortLeaves_perm l₁).map SrcMain.tree_leaf_sort_key).nodup_iff).mpr hk
  rw [hs]

/-- Witness for claim C2: two presentation orders of a two-entry set with
distinct keys serialize identically. -/
theorem claim2_witness :
    SrcMain.GitTree.serialize ⟨[claim3File, claim3Dir]⟩ =
      SrcMain.GitTree.serialize ⟨[claim3Dir, claim3File]⟩ :=
  claim2_amended [claim3File, claim3Dir] [claim3Dir, claim3File] (by decide) (by decide)

/- lemmas about storage monotonicity, used for claim C8 -/

theorem fsRead_createDirAll (fs : FS) (dir p : String) :
    fsRead (createDirAll fs dir) p = fsRead fs p := by
  unfold createDirAll
  split <;> rfl

theorem isSome_fsRead_fsWrite (fs : FS) (p q : String) (d : List Nat)
    (h : (fsRead fs p).isSome = true) : (fsRead (fsWrite fs q d) p).isSome = true := by
  by_cases hpq : p = q
  · rw [hpq, fsRead_fsWrite_self]; rfl
  · rw [fsRead_fsWrite_ne fs p q d hpq]; exact h

theorem storedAt_write_object (fs : FS) (c t : List Nat) (s : String)
    (h : SrcMain.storedAt fs s) : SrcMain.storedAt (SrcMain.write_object fs c t).2 s := by
  unfold SrcMain.storedAt at h ⊢
  unfold SrcMain.write_object
  apply isSome_fsRead_fsWrite
  rw [fsRead_createDirAll]
  exact h

theorem storedAt_write_object_self (fs : FS) (c t : List Nat) :
    SrcMain.storedAt (SrcMain.write_object fs c t).2 (SrcMain.write_object fs c t).1 := by
  unfold SrcMain.storedAt SrcMain.write_object
  rw [fsRead_fsWrite_self]
  rfl

theorem storedAt_storeTree (fs : FS) (ls : List SrcMain.GitTreeLeaf) (sha : String) (fs₁ : FS)
    (s : String) (h : SrcMain.storeTree fs ls = .ok (sha, fs₁)) (hs : SrcMain.storedAt fs s) :
    SrcMain.storedAt fs₁ s := by
  unfold SrcMain.storeTree at h
  rcases hser : SrcMain.GitTree.serialize ⟨ls⟩ with _ | b
  · rw [hser] at h; cases h
  · rw [hser] at h
    injection h with h'
    have hfs : fs₁ = (SrcMain.write_object fs b (strBytes "tree")).2 := by rw [h']
    rw [hfs]
    exact storedAt_write_object fs b (strBytes "tree") s hs

theorem storedAt_storeTree_self (fs : FS) (ls : List SrcMain.GitTreeLeaf) (sha : String)
    (fs₁ : FS) (h : SrcMain.storeTree fs ls = .ok (sha, fs₁)) : SrcMain.storedAt fs₁ sha := by
  unfold SrcMain.storeTree at h
  rcases hser : SrcMain.GitTree.serialize ⟨ls⟩ with _ | b
  · rw [hser] at h; cases h
  · rw [hser] at h
    injection h with h'
    have hsha : sha = (SrcMain.write_object fs b (strBytes "tree")).1 := by rw [h']
    have hfs : fs₁ = (SrcMain.write_object fs b (strBytes "tree")).2 := by rw [h']
    rw [hsha, hfs]
    exact storedAt_write_object_self fs b (strBytes "tree")

theorem writeEntries_mono : ∀ (fs : FS) (ns : List SrcMain.FsNode)
    (ls : List SrcMain.GitTreeLeaf) (fs₁ : FS) (s : String),
    SrcMain.writeEntries fs ns = .ok (ls, fs₁) → SrcMain.storedAt fs s →
    SrcMain.storedAt fs₁ s := by
  intro fs ns
  induction fs, ns using SrcMain.writeEntries.induct with
  | case1 fs =>
    intro ls fs₁ s h hs
    simp only [SrcMain.writeEntries, Except.ok.injEq, Prod.mk.injEq] at h
    rw [← h.2]
    exact hs
  | case2 fs content rest ih =>
    intro ls fs₁ s h hs
    simp only [SrcMain.writeEntries, if_pos rfl] at h
    exact ih ls fs₁ s h hs
  | case3 fs name content rest hne sha fsb hwo leaves fsc hrest ih =>
    intro ls fs₁ s h hs
    simp only [SrcMain.writeEntries, if_neg hne, hwo, hrest, Except.ok.injEq, Prod.mk.injEq] at h
    have hb : SrcMain.storedAt fsb s := by
      have hw := storedAt_write_object fs content (strBytes "blob") s hs
      rw [hwo] at hw
      exact hw
    rw [← h.2]
    exact ih leaves fsc s hrest hb
  | case4 fs name content rest hne sha fsb hwo e herr ih =>
    intro ls fs₁ s h hs
    simp only [SrcMain.writeEntries, if_neg hne, hwo, herr] at h
    exact Except.noConfusion h
  | case5 fs children rest ih =>
    intro ls fs₁ s h hs
    simp only [SrcMain.writeEntries, if_pos rfl] at h
    exact ih ls fs₁ s h hs
  | case6 fs name children rest hne leavesC fsb hch sha fsc hst leaves fsd hrest ih2 ih1 =>
    intro ls fs₁ s h hs
    simp only [SrcMain.writeEntries, if_neg hne, hch, hst, hrest, Except.ok.injEq,
      Prod.mk.injEq] at h
    have hb : SrcMain.storedAt fsb s := ih2 leavesC fsb s hch hs
    have hc : SrcMain.storedAt fsc s := storedAt_storeTree fsb leavesC sha fsc s hst hb
    rw [← h.2]
    exact ih1 leaves fsd s hrest hc
  | case7 fs name children rest hne leavesC fsb hch sha fsc hst e herr ih2 ih1 =>
    intro ls fs₁ s h hs
    simp only [SrcMain.writeEntries, if_neg hne, hch, hst, herr] at h
    exact Except.noConfusion h
  | case8 fs name children rest hne leavesC fsb hch e herr ih =>
    intro ls fs₁ s h hs
    simp only [SrcMain.writeEntries, if_neg hne, hch, herr] at h
    exact Except.noConfusion h
  | case9 fs name children rest hne e herr ih =>
    intro ls fs₁ s h hs
    simp only [SrcMain.writeEntries, if_neg hne, herr] at h
    exact Except.noConfusion h

/-- Claim C8, confirmed. Every tree entry produced by the write-tree walk
names an object that is already present in the object store in the exact
store state against which the enclosing tree is serialized and written:
files are stored as blobs and child directories are fully stored as trees
before their entry is recorded, and later writes only add objects. -/
theorem claim8_theorem : ∀ (fs : FS) (ns : List SrcMain.FsNode)
    (ls : List SrcMain.GitTreeLeaf) (fs₁ : FS),
    SrcMain.writeEntries fs ns = .ok (ls, fs₁) →
    ∀ leaf ∈ ls, SrcMain.storedAt fs₁ leaf.sha_hash := by
  intro fs ns
  induction fs, ns using SrcMain.writeEntries.induct with
  | case1 fs =>
    intro ls fs₁ h leaf hm
    simp only [SrcMain.writeEntries, Except.ok.injEq, Prod.mk.injEq] at h
    rw [← h.1] at hm
    cases hm
  | case2 fs content rest ih =>
    intro ls fs₁ h leaf hm
    simp only [SrcMain.writeEntries, if_pos rfl] at h
    exact ih ls fs₁ h leaf hm
  | case3 fs name content rest hne sha fsb hwo leaves fsc hrest ih =>
    intro ls fs₁ h leaf hm
    simp only [SrcMain.writeEntries, if_neg hne, hwo, hrest, Except.ok.injEq, Prod.mk.injEq] at h
    rw [← h.1] at hm
    rw [← h.2]
    rcases List.mem_cons.mp hm with hm | hm
    · rw [hm]
      have hself := storedAt_write_object_self fs content (strBytes "blob")
      rw [hwo] at hself
      exact writeEntries_mono fsb rest leaves fsc sha hrest hself
    · exact ih leaves fsc hrest leaf hm
  | case4 fs name content rest hne sha fsb hwo e herr ih =>
    intro ls fs₁ h leaf hm
    simp only [SrcMain.writeEntries, if_neg hne, hwo, herr] at h
    exact Except.noConfusion h
  | case5 fs children rest ih =>
    intro ls fs₁ h leaf hm
    simp only [SrcMain.writeEntries, if_pos rfl] at h
    exact ih ls fs₁ h leaf hm
  | case6 fs name children rest hne leavesC fsb hch sha fsc hst leaves fsd hrest ih2 ih1 =>
    intro ls fs₁ h leaf hm
    simp only [SrcMain.writeEntries, if_neg hne, hch, hst, hrest, Except.ok.injEq,
      Prod.mk.injEq] at h
    rw [← h.1] at hm
    rw [← h.2]
    rcases List.mem_cons.mp hm with hm | hm
    · rw [hm]
      have hself := storedAt_storeTree_self fsb leavesC sha fsc hst
      exact writeEntries_mono fsc rest leaves fsd sha hrest hself
    · exact ih1 leaves fsd hrest leaf hm
  | case7 fs name children rest hne leavesC fsb hch sha fsc hst e herr ih2 ih1 =>
    intro ls fs₁ h leaf hm
    simp only [SrcMain.writeEntries, if_neg hne, hch, hst, herr] at h
    exact Except.noConfusion h
  | case8 fs name children rest hne leavesC fsb hch e herr ih =>
    intro ls fs₁ h leaf hm
    simp only [SrcMain.writeEntries, if_neg hne, hch, herr] at h
    exact Except.noConfusion h
  | case9 fs name children rest hne e herr ih =>
    intro ls fs₁ h leaf hm
    simp only [SrcMain.writeEntries, if_neg hne, herr] at h
    exact Except.noConfusion h

/-- Witness for claim C8: walking a single file named a with one byte of
content leaves its blob id stored in the final store state. -/
theorem claim8_witness :
    SrcMain.storedAt (SrcMain.write_object ⟨[], []⟩ [120] (strBytes "blob")).2
      "c1b0730e0133447badcfd47fd144e254807b06e1" := by
  have hsha : (SrcMain.write_object ⟨[], []⟩ [120] (strBytes "blob")).1
      = "c1b0730e0133447badcfd47fd144e254807b06e1" := by decide
  have h1 : SrcMain.writeEntries ⟨[], []⟩ [SrcMain.FsNode.file "a" [120]] =
      .ok ([⟨strBytes "100644", "a", "c1b0730e0133447badcfd47fd144e254807b06e1"⟩],
        (SrcMain.write_object ⟨[], []⟩ [120] (strBytes "blob")).2) := by
    rw [← hsha]
    simp [SrcMain.writeEntries]
  exact claim8_theorem ⟨[], []⟩ [SrcMain.FsNode.file "a" [120]] _ _ h1
    ⟨strBytes "100644", "a", "c1b0730e0133447badcfd47fd144e254807b06e1"⟩ (by simp)
